import Mathlib

/-!
Shallow embedding of the Project-Echo weather-detection training pipeline
(`src/Prototypes/engine/WeatherDetection/optimized_weather_training_pipeline.ipynb`)
and proofs about it.  Amplitudes, spectral energies and losses are modelled
as exact rationals; machine lists replace numpy arrays; fallible library
calls (librosa.load, python max() on an empty sequence) are modelled with
Option.
-/

namespace WeatherPipeline

/-- A waveform is an ordered list of amplitude samples. -/
abbrev Waveform := List ℚ

/-- A 2-D feature matrix (rows of spectral energies). -/
abbrev FeatureMatrix := List (List ℚ)

/-- SC dictionary entry AUDIO_CLIP_DURATION (seconds). -/
def AUDIO_CLIP_DURATION : Nat := 2

/-- SC dictionary entry AUDIO_SAMPLE_RATE (Hz). -/
def AUDIO_SAMPLE_RATE : Nat := 16000

/-- SC dictionary entry MODEL_INPUT_IMAGE_WIDTH. -/
def MODEL_INPUT_IMAGE_WIDTH : Nat := 260

/-- SC dictionary entry MODEL_INPUT_IMAGE_HEIGHT. -/
def MODEL_INPUT_IMAGE_HEIGHT : Nat := 260

/-- SC dictionary entry MODEL_INPUT_IMAGE_CHANNELS. -/
def MODEL_INPUT_IMAGE_CHANNELS : Nat := 3

/-- The pad-or-trim logic of load_and_pad_audio, applied to an already
loaded waveform.  Mirrors the notebook exactly: required_samples is
sr * duration; a short waveform is padded with zeros, pad_length on the
left and the remainder on the right; a long one is trimmed to the
centred slice; an exact-length one is returned unchanged. -/
def padOrTrim (audio : Waveform) (duration sr : Nat) : Waveform :=
  if audio.length < sr * duration then
    List.replicate ((sr * duration - audio.length) / 2) 0 ++ audio ++
      List.replicate
        (sr * duration - audio.length - (sr * duration - audio.length) / 2) 0
  else if sr * duration < audio.length then
    (audio.drop ((audio.length - sr * duration) / 2)).take (sr * duration)
  else audio

/-- load_and_pad_audio: librosa.load either yields a raw waveform or
fails (the except branch returns None); on success the waveform is
padded or trimmed. -/
def loadAndPadAudio (raw : Option Waveform) (duration sr : Nat) :
    Option Waveform :=
  raw.map (fun a => padOrTrim a duration sr)

theorem padOrTrim_length (audio : Waveform) (duration sr : Nat) :
    (padOrTrim audio duration sr).length = sr * duration := by
  unfold padOrTrim
  by_cases h1 : audio.length < sr * duration
  · rw [if_pos h1]
    have hq : (sr * duration - audio.length) / 2 ≤ sr * duration - audio.length :=
      Nat.div_le_self _ _
    simp only [List.length_append, List.length_replicate]
    omega
  · rw [if_neg h1]
    by_cases h2 : sr * duration < audio.length
    · rw [if_pos h2]
      have hs : (audio.length - sr * duration) / 2 ≤ audio.length - sr * duration :=
        Nat.div_le_self _ _
      simp only [List.length_take, List.length_drop]
      omega
    · rw [if_neg h2]
      omega

theorem padOrTrim_of_length_eq (audio : Waveform) (duration sr : Nat)
    (h : audio.length = sr * duration) : padOrTrim audio duration sr = audio := by
  unfold padOrTrim
  rw [if_neg (by omega), if_neg (by omega)]

/-- Claim C4: for every input waveform of any length, every duration d
and every sample rate sr, the normalized waveform has length exactly
d * sr (integer sample count, not approximate). -/
theorem c4_normalized_length (audio : Waveform) (d sr : Nat) :
    (padOrTrim audio d sr).length = d * sr :=
  (padOrTrim_length audio d sr).trans (Nat.mul_comm sr d)

/-- Claim C9: normalization is idempotent: a waveform already of exactly
the target length d * sr is returned unchanged, and hence
normalize (normalize w) = normalize w. -/
theorem c9_normalize_idempotent (w : Waveform) (d sr : Nat) :
    (w.length = sr * d → padOrTrim w d sr = w) ∧
      padOrTrim (padOrTrim w d sr) d sr = padOrTrim w d sr :=
  ⟨fun h => padOrTrim_of_length_eq w d sr h,
   padOrTrim_of_length_eq _ d sr (padOrTrim_length w d sr)⟩

/-- Witness for C9 at concrete inputs: the already-exact waveform
[1, 2] with sr * d = 2, and double normalization of [1, 2, 3] down
to one sample. -/
theorem c9_normalize_idempotent_w :
    padOrTrim [1, 2] 1 2 = [1, 2] ∧
      padOrTrim (padOrTrim [1, 2, 3] 1 1) 1 1 = padOrTrim [1, 2, 3] 1 1 :=
  ⟨(c9_normalize_idempotent [1, 2] 1 2).1 (by decide),
   (c9_normalize_idempotent [1, 2, 3] 1 1).2⟩

/-- Claim C10: padding preserves the retained amplitudes.  For a short
waveform the output at index pad_left + i equals the input at index i,
every index outside the copied window is exactly zero, and the right pad
exceeds the left pad by at most one sample; for a long waveform every
output index i reads the input at start + i where start is the centred
offset (len - required) / 2. -/
theorem c10_pad_trim_frame (w : Waveform) (d sr : Nat) :
    (w.length < sr * d →
      (∀ i, i < w.length →
        (padOrTrim w d sr)[(sr * d - w.length) / 2 + i]? = w[i]?) ∧
      (∀ j, j < (sr * d - w.length) / 2 →
        (padOrTrim w d sr)[j]? = some 0) ∧
      (∀ j, (sr * d - w.length) / 2 + w.length ≤ j → j < sr * d →
        (padOrTrim w d sr)[j]? = some 0) ∧
      sr * d - w.length - (sr * d - w.length) / 2 ≤ (sr * d - w.length) / 2 + 1) ∧
    (sr * d < w.length →
      ∀ i, i < sr * d →
        (padOrTrim w d sr)[i]? = w[(w.length - sr * d) / 2 + i]?) := by
  constructor
  · intro hlt
    have hdef : padOrTrim w d sr =
        List.replicate ((sr * d - w.length) / 2) 0 ++ w ++
          List.replicate (sr * d - w.length - (sr * d - w.length) / 2) 0 := by
      unfold padOrTrim
      rw [if_pos hlt]
    set pl := (sr * d - w.length) / 2 with hpl
    have hple : pl ≤ sr * d - w.length := Nat.div_le_self _ _
    refine ⟨?_, ?_, ?_, ?_⟩
    · intro i hi
      rw [hdef]
      rw [List.getElem?_append_left (by
        simp only [List.length_append, List.length_replicate]; omega)]
      rw [List.getElem?_append_right (by simp only [List.length_replicate]; omega)]
      simp only [List.length_replicate]
      congr 1
      omega
    · intro j hj
      rw [hdef]
      rw [List.getElem?_append_left (by
        simp only [List.length_append, List.length_replicate]; omega)]
      rw [List.getElem?_append_left (by simp only [List.length_replicate]; omega)]
      rw [List.getElem?_replicate, if_pos hj]
    · intro j hj1 hj2
      rw [hdef]
      rw [List.getElem?_append_right (by
        simp only [List.length_append, List.length_replicate]; omega)]
      simp only [List.length_append, List.length_replicate]
      rw [List.getElem?_replicate, if_pos (by omega)]
    · omega
  · intro hgt i hi
    have hdef : padOrTrim w d sr =
        (w.drop ((w.length - sr * d) / 2)).take (sr * d) := by
      unfold padOrTrim
      rw [if_neg (by omega), if_pos hgt]
    rw [hdef, List.getElem?_take_of_lt hi, List.getElem?_drop]

/-- Witness for C10: the short waveform [5, 7] padded to four samples
(left pad one, right pad one) and the long waveform [1, 2, 3, 4, 5]
trimmed to its three centred samples. -/
theorem c10_pad_trim_frame_w :
    (padOrTrim [5, 7] 1 4)[1 + 0]? = ([5, 7] : Waveform)[0]? ∧
      (padOrTrim [5, 7] 1 4)[0]? = some 0 ∧
      (padOrTrim [1, 2, 3, 4, 5] 1 3)[0]? = ([1, 2, 3, 4, 5] : Waveform)[1 + 0]? := by
  refine ⟨?_, ?_, ?_⟩
  · exact ((c10_pad_trim_frame [5, 7] 1 4).1 (by decide)).1 0 (by decide)
  · exact ((c10_pad_trim_frame [5, 7] 1 4).1 (by decide)).2.1 0 (by decide)
  · exact (c10_pad_trim_frame [1, 2, 3, 4, 5] 1 3).2 (by decide) 0 (by decide)

/-- A directory entry immediately under the corpus root: either a plain
file (ignored by the class scan) or a class subdirectory holding audio
files.  Each audio file is the result of librosa.load: some raw waveform
on success, none when loading raises (the except branch of
load_and_pad_audio). -/
inductive Entry where
  | file (name : String)
  | dir (name : String) (files : List (Option Waveform))
deriving DecidableEq

/-- The class_labels list of load_audio_files: the names of the
subdirectories of the root, in enumeration order. -/
def classLabels (root : List Entry) : List String :=
  root.filterMap fun e =>
    match e with
    | Entry.file _ => none
    | Entry.dir n _ => some n

/-- Processing of one class directory: each file is loaded and padded;
files whose load fails (audio is None) are skipped; each success yields
one (feature matrix, label) sample via the extraction function. -/
def processDir (extract : Waveform → FeatureMatrix) (label : String)
    (files : List (Option Waveform)) : List (FeatureMatrix × String) :=
  files.filterMap fun f =>
    (loadAndPadAudio f AUDIO_CLIP_DURATION AUDIO_SAMPLE_RATE).map
      (fun a => (extract a, label))

/-- load_audio_files: walks the class subdirectories in order, processes
every file in order, and returns (audios, labels, class_labels).  The
mel-spectrogram step (librosa melspectrogram followed by power_to_db
with the SC parameters) is the parameter extract, since no claim depends
on the spectral values themselves.  The function is total: it has no
failure outcome; an empty root simply yields three empty lists. -/
def loadAudioFiles (extract : Waveform → FeatureMatrix) (root : List Entry) :
    List FeatureMatrix × List String × List String :=
  let samples := root.foldr
    (fun e acc =>
      match e with
      | Entry.file _ => acc
      | Entry.dir label files => processDir extract label files ++ acc) []
  (samples.map Prod.fst, samples.map Prod.snd, classLabels root)

/-- Total number of audio files under all class subdirectories. -/
def totalFiles (root : List Entry) : Nat :=
  (root.map fun e =>
    match e with
    | Entry.file _ => 0
    | Entry.dir _ files => files.length).sum

/-- Number of audio files whose load fails (librosa.load raises and
load_and_pad_audio returns None). -/
def failedFiles (root : List Entry) : Nat :=
  (root.map fun e =>
    match e with
    | Entry.file _ => 0
    | Entry.dir _ files => files.countP (fun f => f.isNone)).sum

theorem processDir_length (extract : Waveform → FeatureMatrix)
    (label : String) (files : List (Option Waveform)) :
    (processDir extract label files).length =
      files.length - files.countP (fun f => f.isNone) := by
  induction files with
  | nil => rfl
  | cons f fs ih =>
    have hle : fs.countP (fun f => f.isNone) ≤ fs.length := List.countP_le_length _
    cases f with
    | none =>
      have h1 : processDir extract label (none :: fs) =
          processDir extract label fs := rfl
      rw [h1, ih, List.countP_cons]
      simp only [Option.isNone_none, List.length_cons, if_pos]
      omega
    | some w =>
      have h1 : processDir extract label (some w :: fs) =
          (extract (padOrTrim w AUDIO_CLIP_DURATION AUDIO_SAMPLE_RATE), label) ::
            processDir extract label fs := rfl
      rw [h1]
      simp only [List.length_cons]
      rw [ih]
      simp [List.countP_cons]
      omega

theorem loadAudioFiles_samples_length (extract : Waveform → FeatureMatrix)
    (root : List Entry) :
    (loadAudioFiles extract root).1.length = totalFiles root - failedFiles root ∧
      (loadAudioFiles extract root).2.1.length =
        totalFiles root - failedFiles root ∧
      failedFiles root ≤ totalFiles root := by
  induction root with
  | nil => exact ⟨rfl, rfl, Nat.le_refl 0⟩
  | cons e es ih =>
    obtain ⟨ih1, ih2, ih3⟩ := ih
    cases e with
    | file n =>
      simpa only [loadAudioFiles, List.foldr_cons, totalFiles, failedFiles,
        List.map_cons, List.sum_cons, Nat.zero_add] using ⟨ih1, ih2, ih3⟩
    | dir label files =>
      have hpd := processDir_length extract label files
      have hcle : files.countP (fun f => f.isNone) ≤ files.length :=
        List.countP_le_length _
      simp only [loadAudioFiles, List.foldr_cons, totalFiles, failedFiles,
        List.map_cons, List.sum_cons, List.map_append, List.length_append,
        List.length_map] at *
      refine ⟨?_, ?_, ?_⟩
      · rw [hpd, ih1]; omega
      · rw [hpd, ih2]; omega
      · omega

/-- Claim C7: in a corpus where exactly one file fails to load, the
loader returns totalFiles - 1 samples (audios and labels alike): the
failing file is skipped and, the loader being a total function, no
exception propagates past it. -/
theorem c7_skip_failures (extract : Waveform → FeatureMatrix)
    (root : List Entry) (h : failedFiles root = 1) :
    (loadAudioFiles extract root).1.length = totalFiles root - 1 ∧
      (loadAudioFiles extract root).2.1.length = totalFiles root - 1 := by
  have hlen := loadAudioFiles_samples_length extract root
  rw [h] at hlen
  exact ⟨hlen.1, hlen.2.1⟩

/-- A trivial feature extraction used to instantiate theorems at
concrete corpora: it wraps the waveform as a one-row matrix. -/
def exExtract : Waveform → FeatureMatrix := fun w => [w]

/-- Concrete corpus for the C7 witness: four files across two classes,
exactly one of which fails to load. -/
def c7Root : List Entry :=
  [Entry.dir "a" [some [1], none, some [2]], Entry.dir "b" [some [3]]]

/-- Witness for C7: the concrete corpus with one failing file among four
yields three samples. -/
theorem c7_skip_failures_w :
    (loadAudioFiles exExtract c7Root).1.length = totalFiles c7Root - 1 :=
  (c7_skip_failures exExtract c7Root (by decide)).1

/-- Claim C3 counterexample: a root with no class subdirectories (one
plain file) makes load_audio_files return normally with empty samples,
empty labels and an empty vocabulary; the code raises no
EmptyCorpusError and has no failure outcome at all, so the claimed
Failure return is refuted. -/
theorem c3_empty_root_cex :
    loadAudioFiles exExtract [Entry.file "readme"] = ([], [], []) := by
  decide

/-- Claim C3 amended: for every root with no class subdirectories the
loader returns normally with three empty lists. -/
theorem c3_empty_root_normal (extract : Waveform → FeatureMatrix)
    (root : List Entry) (h : classLabels root = []) :
    loadAudioFiles extract root = ([], [], []) := by
  have hsam : root.foldr
      (fun e acc =>
        match e with
        | Entry.file _ => acc
        | Entry.dir label files => processDir extract label files ++ acc)
      ([] : List (FeatureMatrix × String)) = [] := by
    induction root with
    | nil => rfl
    | cons e es ih =>
      cases e with
      | file n =>
        simp only [classLabels, List.filterMap_cons] at h
        simp only [List.foldr_cons]
        exact ih h
      | dir label files =>
        simp only [classLabels, List.filterMap_cons] at h
        exact absurd h (List.cons_ne_nil _ _)
  simp only [loadAudioFiles, hsam, List.map_nil]
  exact congrArg (fun v => (([] : List FeatureMatrix), ([] : List String), v)) h

/-- Witness for C3 amended at a root holding two plain files and no
directories. -/
theorem c3_empty_root_normal_w :
    loadAudioFiles exExtract [Entry.file "x", Entry.file "y"] = ([], [], []) :=
  c3_empty_root_normal exExtract [Entry.file "x", Entry.file "y"] (by decide)

/-- Lexicographic comparison of two character lists by code point, the
order Python (and numpy np.unique) applies to strings. -/
def charListLt : List Char → List Char → Bool
  | [], [] => false
  | [], _ :: _ => true
  | _ :: _, [] => false
  | c :: cs, d :: ds =>
    if c < d then true else if d < c then false else charListLt cs ds

/-- Lexicographic string comparison by code point. -/
def strLtB (s t : String) : Bool := charListLt s.data t.data

/-- Insertion of a string into a sorted duplicate-free list, keeping it
sorted and duplicate-free. -/
def insertSorted (s : String) : List String → List String
  | [] => [s]
  | x :: xs =>
    if strLtB s x then s :: x :: xs
    else if s = x then x :: xs
    else x :: insertSorted s xs

/-- The classes_ attribute of sklearn LabelEncoder after fit_transform:
the distinct labels of the fitted list in ascending order (numpy
np.unique semantics). -/
def sortedUnique (l : List String) : List String := l.foldr insertSorted []

/-- LabelEncoder.fit_transform(labels): each label is replaced by its
position in the ascending list of distinct labels. -/
def labelEncode (labels : List String) : List Nat :=
  labels.map fun s => (sortedUnique labels).indexOf s

/-- A one-hot row of width n with the single 1 at position x. -/
def oneHot (n x : Nat) : List ℚ :=
  (List.range n).map fun i => if i = x then 1 else 0

/-- keras to_categorical with the default num_classes: the width is the
maximum class index plus one. -/
def toCategorical (xs : List Nat) : List (List ℚ) :=
  xs.map (oneHot ((xs.foldr max 0) + 1))

theorem mem_insertSorted {a s : String} {l : List String} :
    a ∈ insertSorted s l ↔ a = s ∨ a ∈ l := by
  induction l with
  | nil => simp [insertSorted]
  | cons x xs ih =>
    unfold insertSorted
    by_cases h1 : strLtB s x = true
    · rw [if_pos h1]
      simp
    · rw [if_neg h1]
      by_cases h2 : s = x
      · rw [if_pos h2]
        subst h2
        simp only [List.mem_cons]
        constructor
        · exact fun h => Or.inr h
        · rintro (h | h)
          · exact Or.inl h
          · exact h
      · rw [if_neg h2]
        simp only [List.mem_cons, ih]
        tauto

theorem mem_sortedUnique {a : String} {l : List String} (h : a ∈ l) :
    a ∈ sortedUnique l := by
  induction l with
  | nil => cases h
  | cons x xs ih =>
    have hsu : sortedUnique (x :: xs) = insertSorted x (sortedUnique xs) := rfl
    rw [hsu, mem_insertSorted]
    rcases List.mem_cons.mp h with h | h
    · exact Or.inl h
    · exact Or.inr (ih h)

theorem labelEncode_consistent (labels : List String) :
    (∀ i j : Nat, labels[i]? = labels[j]? →
      (labelEncode labels)[i]? = (labelEncode labels)[j]?) ∧
    (∀ i : Nat, i < labels.length → ∃ k, (labelEncode labels)[i]? = some k ∧
      (sortedUnique labels)[k]? = labels[i]?) := by
  constructor
  · intro i j hij
    simp only [labelEncode, List.getElem?_map, hij]
  · intro i hi
    refine ⟨(sortedUnique labels).indexOf labels[i], ?_, ?_⟩
    · simp only [labelEncode, List.getElem?_map, List.getElem?_eq_getElem hi,
        Option.map_some']
    · have hmem : labels[i] ∈ sortedUnique labels :=
        mem_sortedUnique (labels.getElem_mem hi)
      have hlt : (sortedUnique labels).indexOf labels[i] <
          (sortedUnique labels).length := List.indexOf_lt_length.mpr hmem
      rw [List.getElem?_eq_getElem hlt, List.getElem_indexOf hlt,
        List.getElem?_eq_getElem hi]

/-- Claim C2 counterexample: a corpus whose directory enumeration order
is ["b", "a"] (one successfully processed file each).  The vocabulary
returned by the loader lists "b" at position 0, but label encoding
assigns sample 0 (labelled "b") the index 1, because
LabelEncoder.fit_transform numbers the distinct observed labels in
ascending sorted order, not in enumeration order. -/
theorem c2_vocab_order_cex :
    (loadAudioFiles exExtract
        [Entry.dir "b" [some [1]], Entry.dir "a" [some [1]]]).2.2.indexOf "b" = 0 ∧
    (labelEncode (loadAudioFiles exExtract
        [Entry.dir "b" [some [1]], Entry.dir "a" [some [1]]]).2.1)[0]? = some 1 := by
  constructor
  · rfl
  · rfl

/-- Claim C2 amended: the integer class index of every sample equals
that sample's label position in the ascending sorted list of distinct
observed labels (so the index decodes back to the original label
through that list), and the identical label-to-index mapping is applied
to every sample in the run. -/
theorem c2_encoding_consistent (extract : Waveform → FeatureMatrix)
    (root : List Entry) :
    (∀ i j : Nat, (loadAudioFiles extract root).2.1[i]? =
        (loadAudioFiles extract root).2.1[j]? →
      (labelEncode (loadAudioFiles extract root).2.1)[i]? =
        (labelEncode (loadAudioFiles extract root).2.1)[j]?) ∧
    (∀ i : Nat, i < (loadAudioFiles extract root).2.1.length →
      ∃ k, (labelEncode (loadAudioFiles extract root).2.1)[i]? = some k ∧
        (sortedUnique (loadAudioFiles extract root).2.1)[k]? =
          (loadAudioFiles extract root).2.1[i]?) :=
  labelEncode_consistent (loadAudioFiles extract root).2.1

/-- Witness for C2 amended: a corpus with two files of the same class
receives the same index for both samples, and sample 0's index decodes
back to its label. -/
theorem c2_encoding_consistent_w :
    (labelEncode (loadAudioFiles exExtract
        [Entry.dir "a" [some [1], some [2]]]).2.1)[0]? =
      (labelEncode (loadAudioFiles exExtract
        [Entry.dir "a" [some [1], some [2]]]).2.1)[1]? ∧
    ∃ k, (labelEncode (loadAudioFiles exExtract
        [Entry.dir "a" [some [1], some [2]]]).2.1)[0]? = some k ∧
      (sortedUnique (loadAudioFiles exExtract
        [Entry.dir "a" [some [1], some [2]]]).2.1)[k]? =
        (loadAudioFiles exExtract
          [Entry.dir "a" [some [1], some [2]]]).2.1[0]? :=
  ⟨(c2_encoding_consistent exExtract [Entry.dir "a" [some [1], some [2]]]).1
      0 1 (by rfl),
   (c2_encoding_consistent exExtract [Entry.dir "a" [some [1], some [2]]]).2
      0 (by decide)⟩

/-- Concrete corpus for claim C1: two class directories, "thunder"
holding a single unreadable file and so contributing zero successfully
processed samples. -/
def c1Root : List Entry :=
  [Entry.dir "rain" [some [1]], Entry.dir "thunder" [none]]

/-- Claim C1 evaluated at the failing input: with the "thunder" class
contributing zero successfully processed samples, every target vector
produced by LabelEncoder followed by to_categorical has width 1, while
the label vocabulary returned by the loader has 2 entries (and
build_model sizes its softmax output from those 2 entries), so target
width does not equal the vocabulary size. -/
theorem c1_zero_class_width :
    (toCategorical (labelEncode
        (loadAudioFiles exExtract c1Root).2.1)).map List.length = [1] ∧
      (loadAudioFiles exExtract c1Root).2.2.length = 2 := by
  constructor
  · rfl
  · rfl

/-- A 3-D tensor: rows of pixels, each pixel a list of channel values. -/
abbrev Tensor3 := List (List (List ℚ))

/-- Height of the tallest feature matrix in the batch (python
max(audio.shape[0] for audio in audios), assuming the batch nonempty). -/
def maxHeight (ms : List FeatureMatrix) : Nat :=
  ms.foldl (fun acc m => max acc m.length) 0

/-- Width of the widest feature matrix in the batch (shape[1] of a
rectangular numpy array is the length of its first row). -/
def maxWidth (ms : List FeatureMatrix) : Nat :=
  ms.foldl (fun acc m => max acc (m.headD []).length) 0

/-- np.pad(audio, ((0, h - rows), (0, w - cols)), constant): zero pad
each row on the right to width w and append all-zero rows up to h. -/
def padMatrixTo (m : FeatureMatrix) (h w : Nat) : FeatureMatrix :=
  (m.map fun row => row ++ List.replicate (w - row.length) 0) ++
    List.replicate (h - m.length) (List.replicate w 0)

/-- The audios_padded batch expression of the notebook.  Python max()
raises ValueError on an empty generator, so an empty batch yields no
value. -/
def padAudios (ms : List FeatureMatrix) : Option (List FeatureMatrix) :=
  if ms.isEmpty then none
  else some (ms.map fun m => padMatrixTo m (maxHeight ms) (maxWidth ms))

/-- Source coordinate of output index i under tf.image.resize with
half-pixel centers: (i + 1/2) * (inN / outN) - 1/2. -/
def srcCoord (i outN inN : Nat) : ℚ :=
  (((i : ℚ) + 1 / 2) * (inN : ℚ)) / (outN : ℚ) - 1 / 2

/-- Clamp an integer index into [0, n - 1]. -/
def clampIdx (i : Int) (n : Nat) : Nat :=
  (min (max i 0) ((n : Int) - 1)).toNat

/-- Entry of a feature matrix at (r, c), zero outside bounds. -/
def getEntry (m : FeatureMatrix) (r c : Nat) : ℚ := ((m.getD r []).getD c 0)

/-- tf.image.resize(spect, target, method=bilinear): each output pixel
bilinearly interpolates the four surrounding input pixels at its
half-pixel source coordinate, with indices clamped at the borders. -/
def resizeBilinear (m : FeatureMatrix) (outH outW : Nat) : FeatureMatrix :=
  (List.range outH).map fun i =>
    (List.range outW).map fun j =>
      let sy := srcCoord i outH m.length
      let sx := srcCoord j outW (m.headD []).length
      let y0 := clampIdx (Rat.floor sy) m.length
      let y1 := clampIdx (Rat.floor sy + 1) m.length
      let x0 := clampIdx (Rat.floor sx) (m.headD []).length
      let x1 := clampIdx (Rat.floor sx + 1) (m.headD []).length
      let fy := sy - (Rat.floor sy : ℚ)
      let fx := sx - (Rat.floor sx : ℚ)
      let top := getEntry m y0 x0 * (1 - fx) + getEntry m y0 x1 * fx
      let bot := getEntry m y1 x0 * (1 - fx) + getEntry m y1 x1 * fx
      top * (1 - fy) + bot * fy

/-- np.repeat(resized, channels, axis=3): each single-channel value is
replicated into channels identical channel entries. -/
def repeatChannel (m : FeatureMatrix) (channels : Nat) : Tensor3 :=
  m.map fun row => row.map fun v => List.replicate channels v

/-- prepare_spectrograms: resize every matrix of the batch to the model
input resolution with bilinear interpolation, then replicate it to the
model's channel count. -/
def prepareSpectrograms (ms : List FeatureMatrix) : List Tensor3 :=
  ms.map fun m =>
    repeatChannel
      (resizeBilinear m MODEL_INPUT_IMAGE_HEIGHT MODEL_INPUT_IMAGE_WIDTH)
      MODEL_INPUT_IMAGE_CHANNELS

/-- The TensorPreparer pipeline of the notebook cell: pad the batch to
its common raw shape, then resize and channel-replicate.  An empty
batch fails at the python max() call. -/
def tensorPrepare (ms : List FeatureMatrix) : Option (List Tensor3) :=
  (padAudios ms).map prepareSpectrograms

/-- Claim C5 counterexample: an empty batch makes TensorPreparer fail
at python max() over an empty sequence, producing no output at all
instead of the zero output tensors the claim would require. -/
theorem c5_empty_batch_cex : tensorPrepare [] = none := rfl

/-- Claim C5 amended: for every nonempty batch, TensorPreparer yields
exactly one output tensor per input sample, every tensor has shape
(MODEL_INPUT_IMAGE_HEIGHT, MODEL_INPUT_IMAGE_WIDTH,
MODEL_INPUT_IMAGE_CHANNELS), and the channel entries of each pixel are
all identical. -/
theorem c5_prepare_shapes (ms : List FeatureMatrix) (h : ms ≠ []) :
    ∃ out, tensorPrepare ms = some out ∧ out.length = ms.length ∧
      ∀ t ∈ out, t.length = MODEL_INPUT_IMAGE_HEIGHT ∧
        ∀ row ∈ t, row.length = MODEL_INPUT_IMAGE_WIDTH ∧
          ∀ px ∈ row, px.length = MODEL_INPUT_IMAGE_CHANNELS ∧
            ∀ a ∈ px, ∀ b ∈ px, a = b := by
  have hne : ms.isEmpty = false := by
    cases ms with
    | nil => exact absurd rfl h
    | cons x xs => rfl
  refine ⟨prepareSpectrograms
    (ms.map fun m => padMatrixTo m (maxHeight ms) (maxWidth ms)), ?_, ?_, ?_⟩
  · simp only [tensorPrepare, padAudios, hne, Bool.false_eq_true, if_false,
      Option.map_some']
  · simp only [prepareSpectrograms, List.length_map]
  · intro t ht
    simp only [prepareSpectrograms, List.mem_map] at ht
    obtain ⟨m, _, hm⟩ := ht
    subst hm
    constructor
    · simp only [repeatChannel, resizeBilinear, List.length_map,
        List.length_range]
    · intro row hrow
      simp only [repeatChannel, List.mem_map] at hrow
      obtain ⟨row0, hrow0, hrow0eq⟩ := hrow
      subst hrow0eq
      simp only [resizeBilinear, List.mem_map] at hrow0
      obtain ⟨i, _, hieq⟩ := hrow0
      constructor
      · rw [← hieq]
        simp only [List.length_map, List.length_range]
      · intro px hpx
        simp only [List.mem_map] at hpx
        obtain ⟨v, _, hveq⟩ := hpx
        subst hveq
        refine ⟨List.length_replicate _ _, ?_⟩
        intro a ha b hb
        rw [List.eq_of_mem_replicate ha, List.eq_of_mem_replicate hb]

/-- Witness for C5 at the one-element batch holding a single 1x1
matrix. -/
theorem c5_prepare_shapes_w :
    ∃ out, tensorPrepare [[[(1 : ℚ)]]] = some out ∧
      out.length = [[[(1 : ℚ)]]].length ∧
      ∀ t ∈ out, t.length = MODEL_INPUT_IMAGE_HEIGHT ∧
        ∀ row ∈ t, row.length = MODEL_INPUT_IMAGE_WIDTH ∧
          ∀ px ∈ row, px.length = MODEL_INPUT_IMAGE_CHANNELS ∧
            ∀ a ∈ px, ∀ b ∈ px, a = b :=
  c5_prepare_shapes [[[(1 : ℚ)]]] (by decide)

/-- Number of eval samples taken by sklearn train_test_split for the
notebook's test_size=0.2: the ceiling of n / 5 (sklearn computes
ceil(test_size * n_samples) for a float test_size). -/
def nTestOf (n : Nat) : Nat := (n + 4) / 5

/-- Index-level model of sklearn train_test_split(..., test_size=0.2,
random_state=42): the seeded shuffle produces some permutation perm of
the input indices; the first nTestOf entries of the shuffled order form
the eval (test) set and the remainder the train set.  Returns
(train indices, eval indices). -/
def trainTestSplitIdx (perm : List Nat) : List Nat × List Nat :=
  (perm.drop (nTestOf perm.length), perm.take (nTestOf perm.length))

/-- The eval-set size the claim asserts, following its words: Python
round(n * 0.2), which is round-half-even of n / 5; since n / 5 never has
fractional part one half, this is ordinary rounding. -/
def specRoundEvalSize (n : Nat) : Nat :=
  if n % 5 ≤ 2 then n / 5 else n / 5 + 1

/-- Claim C6 counterexample: at n = 7, the code takes
ceil(7 * 0.2) = 2 eval samples while the claim's round(7 * 0.2) = 1, so
the claimed eval size formula fails on the code. -/
theorem c6_round_cex :
    (trainTestSplitIdx (List.range 7)).2.length = 2 ∧
      specRoundEvalSize 7 = 1 := by decide

/-- Claim C6 amended: for every permutation of the n input indices
chosen by the seeded shuffle, the train and eval parts are disjoint and
together cover every input index exactly once, and the eval part has
ceil(n * 0.2) elements (2 when n = 10, matching the claim's example). -/
theorem c6_split_partition (n : Nat) (perm : List Nat)
    (h : perm.Perm (List.range n)) :
    (trainTestSplitIdx perm).2.length = nTestOf n ∧
      ((trainTestSplitIdx perm).2 ++ (trainTestSplitIdx perm).1).Perm
        (List.range n) ∧
      ∀ x ∈ (trainTestSplitIdx perm).2, x ∉ (trainTestSplitIdx perm).1 := by
  have hlen : perm.length = n := by
    rw [h.length_eq, List.length_range]
  have hnd : perm.Nodup := (h.nodup_iff).mpr (List.nodup_range n)
  refine ⟨?_, ?_, ?_⟩
  · simp only [trainTestSplitIdx, List.length_take, hlen]
    have : nTestOf n ≤ n := by
      unfold nTestOf
      omega
    omega
  · simp only [trainTestSplitIdx, List.take_append_drop]
    exact h
  · intro x hx
    exact fun htr =>
      (List.disjoint_take_drop hnd (Nat.le_refl _)) hx htr

/-- Witness for C6 at n = 10 with the identity shuffle: eval size 2 and
the two parts partition the ten indices. -/
theorem c6_split_partition_w :
    (trainTestSplitIdx (List.range 10)).2.length = 2 ∧
      ((trainTestSplitIdx (List.range 10)).2 ++
        (trainTestSplitIdx (List.range 10)).1).Perm (List.range 10) := by
  have h := c6_split_partition 10 (List.range 10) (List.Perm.refl _)
  exact ⟨h.1.trans (by decide), h.2.1⟩

/-- The mutable state of the EarlyStopping(monitor=val_loss,
restore_best_weights=True) callback: best evaluation loss seen so far
(none before any epoch, modelling the numpy +inf start), the epoch of
the best checkpoint, and the count of consecutive epochs without
improvement. -/
structure ESState where
  best : Option ℚ
  bestEpoch : Nat
  wait : Nat
deriving DecidableEq, Repr

/-- Outcome of a training run: whether it early stopped, how many epochs
ran, and which epoch's weights the classifier holds at the end (the
restored best checkpoint on early stop, the final epoch otherwise). -/
structure TrainResult where
  earlyStopped : Bool
  epochsRun : Nat
  restoredEpoch : Nat
deriving DecidableEq, Repr

/-- Keras improvement test for mode min: the current loss must be
strictly below the best seen; any loss improves on the initial +inf. -/
def improvedB (cur : ℚ) (best : Option ℚ) : Bool :=
  match best with
  | none => true
  | some b => decide (cur < b)

/-- The epoch loop of model.fit with the EarlyStopping callback: at the
end of epoch e, an improved evaluation loss checkpoints the weights and
resets the patience counter; otherwise the counter grows and, once it
reaches patience, training stops and the best-checkpointed weights are
restored.  Exhausting the epoch budget ends with the final epoch's
weights. -/
def runFrom (loss : Nat → ℚ) (patience : Nat) :
    Nat → Nat → ESState → TrainResult
  | 0, epoch, _ => ⟨false, epoch, epoch - 1⟩
  | fuel + 1, epoch, s =>
    if improvedB (loss epoch) s.best then
      runFrom loss patience fuel (epoch + 1) ⟨some (loss epoch), epoch, 0⟩
    else
      if patience ≤ s.wait + 1 then ⟨true, epoch + 1, s.bestEpoch⟩
      else runFrom loss patience fuel (epoch + 1) ⟨s.best, s.bestEpoch, s.wait + 1⟩

/-- A full training run: epochs=maxEpochs (100 in the notebook),
EarlyStopping patience (20 in the notebook), starting with no best
checkpoint. -/
def runTraining (loss : Nat → ℚ) (maxEpochs patience : Nat) : TrainResult :=
  runFrom loss patience maxEpochs 0 ⟨none, 0, 0⟩

theorem runFrom_flat (loss : Nat → ℚ) (patience : Nat) (b : ℚ) (be : Nat) :
    ∀ (k : Nat) (fuel e w : Nat), (∀ i, e ≤ i → loss i = b) →
      w + k = patience → 1 ≤ k → k ≤ fuel →
      runFrom loss patience fuel e ⟨some b, be, w⟩ = ⟨true, e + k, be⟩ := by
  intro k
  induction k with
  | zero => omega
  | succ k ih =>
    intro fuel e w hflat hwk _ hkf
    obtain ⟨f, rfl⟩ : ∃ f, fuel = f + 1 := ⟨fuel - 1, by omega⟩
    have hle : loss e = b := hflat e (Nat.le_refl e)
    have himp : improvedB (loss e) (some b) = false := by
      rw [hle]
      simp [improvedB]
    rw [runFrom, himp]
    simp only [Bool.false_eq_true, if_false]
    by_cases hstop : patience ≤ w + 1
    · rw [if_pos hstop]
      have hk0 : k = 0 := by omega
      subst hk0
      rfl
    · rw [if_neg hstop]
      have hres := ih f (e + 1) (w + 1)
        (fun i hi => hflat i (by omega)) (by omega) (by omega) (by omega)
      rw [hres]
      have : e + 1 + k = e + (k + 1) := by omega
      rw [this]

/-- Claim C8: when the evaluation loss improves once (epoch 1, loss b
below epoch 0's loss a) and then stays flat for at least patience
consecutive epochs, the training controller stops early at epoch
patience + 1, having run patience + 2 of the budgeted epochs, and the
classifier ends holding the epoch-1 (best) checkpoint, not the final
epoch's weights. -/
theorem c8_early_stop_restores_best (loss : Nat → ℚ) (a b : ℚ)
    (patience maxEpochs : Nat) (h0 : loss 0 = a)
    (hflat : ∀ i, 1 ≤ i → loss i = b) (hba : b < a) (hp : 1 ≤ patience)
    (hm : patience + 2 ≤ maxEpochs) :
    runTraining loss maxEpochs patience =
        ⟨true, patience + 2, 1⟩ ∧
      (1 : Nat) ≠ patience + 2 - 1 := by
  obtain ⟨f, rfl⟩ : ∃ f, maxEpochs = f + 2 := ⟨maxEpochs - 2, by omega⟩
  constructor
  · unfold runTraining
    have h1 : improvedB (loss 0) none = true := rfl
    rw [runFrom, h1, if_pos rfl]
    have h2 : improvedB (loss 1) (some (loss 0)) = true := by
      rw [h0, hflat 1 (Nat.le_refl 1)]
      simp [improvedB, hba]
    rw [runFrom, h2, if_pos rfl]
    have h3 := runFrom_flat loss patience (loss 1) 1 patience f 2 0
      (fun i hi => (hflat i (by omega)).trans (hflat 1 (Nat.le_refl 1)).symm)
      (by omega) hp (by omega)
    rw [h3]
    have : 2 + patience = patience + 2 := by omega
    rw [this]
  · omega

/-- The evaluation-loss sequence of the claim's scenario: 0.9 at epoch
0, then 0.85 held flat. -/
def c8Loss : Nat → ℚ := fun i => if i = 0 then 9 / 10 else 17 / 20

/-- Witness for C8: with the notebook's patience 20 and epoch budget
100 on the loss sequence [0.9, 0.85, 0.85, ...], training early-stops
after 22 epochs and restores the epoch-1 checkpoint, which is not the
final epoch. -/
theorem c8_early_stop_restores_best_w :
    runTraining c8Loss 100 20 = ⟨true, 22, 1⟩ ∧ (1 : Nat) ≠ 22 - 1 := by
  have h := c8_early_stop_restores_best c8Loss (9 / 10) (17 / 20) 20 100
    rfl
    (fun i hi => by
      unfold c8Loss
      rw [if_neg (by omega)])
    (by norm_num) (by decide) (by decide)
  exact ⟨h.1, by decide⟩

end WeatherPipeline
